import Mathlib

/-!
Verification development for the EquationHub API backend
(`src/backend/src/route/equations.js` and `src/backend/src/server.js`).

Modelling conventions (shallow embedding):
* JavaScript numbers are modelled by exact rationals `ℚ`.  The float
  literals `1e-10` and `1e-6` appearing in the source are modelled by the
  exact rationals `1/10^10` and `1/10^6`.
* `Math.sqrt` has no exact counterpart on `ℚ`; every definition that
  calls it takes an explicit function argument `sq : ℚ → ℚ` standing for
  the square-root routine, and theorems carry the characterising facts
  (`sq d * sq d = d`, `0 ≤ sq d`) as hypotheses at the points where the
  value matters.
* Where IEEE special values (NaN, ±Infinity) are observable, numbers are
  modelled by the inductive `JsNum` below; elsewhere plain `ℚ` is used.
* Fallible route handlers are modelled with `Except String`; the error
  string is a tag for the 4xx response the route returns.
-/

/- ## IEEE special values

`JsNum` models the result of a JavaScript arithmetic step that can
produce a non-finite value.  `jsDivQ x y` models the IEEE division
`x / y` of two finite values: for `y ≠ 0` it is exact division, for
`y = 0` it follows the IEEE rules `x/0 = ±Infinity` (sign of `x`) and
`0/0 = NaN`. -/

inductive JsNum where
  | fin (q : ℚ)
  | posInf
  | negInf
  | nan
deriving DecidableEq, Repr

def jsDivQ (x y : ℚ) : JsNum :=
  if y ≠ 0 then .fin (x / y)
  else if 0 < x then .posInf
  else if x < 0 then .negInf
  else .nan

def JsNum.isFinite : JsNum → Bool
  | .fin _ => true
  | _ => false

/- ## Tolerances (source literals `1e-10` and `1e-6`) -/

def tol10 : ℚ := 1 / 10 ^ 10

def tol6 : ℚ := 1 / 10 ^ 6

/- ## EquationSolver

`router.post('/linear')` (equations.js:229-269).  The express-validator
chain `validateLinear` (lines 25-38) rejects non-numeric input (our
inputs are rationals, hence always numeric) and `a = 0`.  The handler
computes `x = -b/a` and the residual `a*x + b`, clamped to `0` when its
magnitude is below `1e-10`. -/

structure LinearResult where
  x : ℚ
  verification : ℚ
deriving DecidableEq, Repr

def solveLinear (a b : ℚ) : Except String LinearResult :=
  if a = 0 then .error "InvalidCoefficient"
  else
    let solution := -b / a
    let verification := a * solution + b
    .ok ⟨solution, if |verification| < tol10 then 0 else verification⟩

/- `router.post('/quadratic')` (equations.js:107-184) together with
`verifySolutions` (lines 470-479).  `validateQuadratic` (lines 6-22)
rejects `a = 0`.  The `two_real` branch sorts `[x1, x2]` with the JS
comparator `(a, b) => a - b`, i.e. ascending. -/

structure VerifyEntry where
  x : ℚ
  verification : ℚ
  isValid : Bool
deriving DecidableEq, Repr

def verifySolutions (a b c : ℚ) (solutions : List ℚ) : List VerifyEntry :=
  solutions.map fun x =>
    let result := a * x * x + b * x + c
    ⟨x, if |result| < tol10 then 0 else result, decide (|result| < tol6)⟩

/-- models `[x1, x2].sort((a, b) => a - b)` on a two-element array -/
def jsSortPair (x y : ℚ) : List ℚ :=
  if x ≤ y then [x, y] else [y, x]

inductive QuadSolutions where
  | real (xs : List ℚ)
  | complex (re im : ℚ)
deriving DecidableEq, Repr

structure QuadResult where
  discriminant : ℚ
  solutions : QuadSolutions
  qtype : String
  verification : Option (List VerifyEntry)
deriving DecidableEq, Repr

def solveQuadratic (sq : ℚ → ℚ) (a b c : ℚ) : Except String QuadResult :=
  if a = 0 then .error "InvalidCoefficient"
  else
    let discriminant := b * b - 4 * a * c
    if 0 < discriminant then
      let x1 := (-b + sq discriminant) / (2 * a)
      let x2 := (-b - sq discriminant) / (2 * a)
      let solutions := jsSortPair x1 x2
      .ok ⟨discriminant, .real solutions, "two_real",
        some (verifySolutions a b c solutions)⟩
    else if discriminant = 0 then
      let x := -b / (2 * a)
      .ok ⟨discriminant, .real [x], "one_real",
        some (verifySolutions a b c [x])⟩
    else
      let realPart := -b / (2 * a)
      let imagPart := sq (-discriminant) / (2 * a)
      .ok ⟨discriminant, .complex realPart imagPart, "complex", none⟩

/- `router.post('/system')` (equations.js:307-365): Cramer's rule with
the singularity guard `Math.abs(det) < 1e-10`. -/

structure SysResult where
  x : ℚ
  y : ℚ
  determinant : ℚ
  ver1 : ℚ
  ver2 : ℚ
deriving DecidableEq, Repr

def solveSystem2x2 (a1 b1 c1 a2 b2 c2 : ℚ) : Except String SysResult :=
  let det := a1 * b2 - a2 * b1
  if |det| < tol10 then .error "SingularSystem"
  else
    let x := (c1 * b2 - c2 * b1) / det
    let y := (a1 * c2 - a2 * c1) / det
    .ok ⟨x, y, det, a1 * x + b1 * y, a2 * x + b2 * y⟩

/- ## Claim C5 -/

/-- Claim C5: for every pair of equations, whenever `|D| < 1e-10` with
`D = a1*b2 - a2*b1` the system route fails with `SingularSystem` and
never returns a numeric solution; otherwise it returns exactly
`x = (c1*b2 - c2*b1)/D`, `y = (a1*c2 - a2*c1)/D` and the determinant. -/
theorem C5_system_singular_or_cramer (a1 b1 c1 a2 b2 c2 d : ℚ)
    (hd : d = a1 * b2 - a2 * b1) :
    (|d| < tol10 →
      solveSystem2x2 a1 b1 c1 a2 b2 c2 = .error "SingularSystem") ∧
    (¬ |d| < tol10 →
      solveSystem2x2 a1 b1 c1 a2 b2 c2 =
        .ok ⟨(c1 * b2 - c2 * b1) / d, (a1 * c2 - a2 * c1) / d, d,
          a1 * ((c1 * b2 - c2 * b1) / d) + b1 * ((a1 * c2 - a2 * c1) / d),
          a2 * ((c1 * b2 - c2 * b1) / d) + b2 * ((a1 * c2 - a2 * c1) / d)⟩) := by
  subst hd
  constructor
  · intro h
    simp [solveSystem2x2, h]
  · intro h
    simp [solveSystem2x2, h]

theorem C5_witness :
    (¬ |(-5 : ℚ)| < tol10 →
      solveSystem2x2 2 3 7 1 (-1) 1 =
        .ok ⟨(7 * (-1) - 1 * 3) / (-5), (2 * 1 - 1 * 7) / (-5), -5,
          2 * ((7 * (-1) - 1 * 3) / (-5)) + 3 * ((2 * 1 - 1 * 7) / (-5)),
          1 * ((7 * (-1) - 1 * 3) / (-5)) + (-1) * ((2 * 1 - 1 * 7) / (-5))⟩) ∧
    (|(0 : ℚ)| < tol10 →
      solveSystem2x2 1 2 3 2 4 6 = .error "SingularSystem") := by
  constructor
  · exact (C5_system_singular_or_cramer 2 3 7 1 (-1) 1 (-5) (by norm_num)).2
  · exact (C5_system_singular_or_cramer 1 2 3 2 4 6 0 (by norm_num)).1

/- ## Claim C6 -/

/-- Claim C6: for `a ≠ 0`, `solveLinear` returns `x = -b/a` together with
the residual `a*x + b` clamped to exactly 0 when its magnitude is below
`1e-10` (in exact arithmetic the residual is exactly 0, so the reported
value is 0); for `a = 0` it fails with a validation error. -/
theorem C6_linear_solution_and_residual (a b x : ℚ) (hx : x = -b / a) :
    (a ≠ 0 →
      solveLinear a b =
        .ok ⟨x, if |a * x + b| < tol10 then 0 else a * x + b⟩ ∧
      a * x + b = 0 ∧
      solveLinear a b = .ok ⟨x, 0⟩) ∧
    (a = 0 → solveLinear a b = .error "InvalidCoefficient") := by
  constructor
  · intro ha
    subst hx
    have hres : a * (-b / a) + b = 0 := by
      field_simp
      ring
    refine ⟨?_, hres, ?_⟩
    · simp [solveLinear, ha]
    · have hok : solveLinear a b =
          .ok ⟨-b / a, if |a * (-b / a) + b| < tol10 then 0
            else a * (-b / a) + b⟩ := by
        simp [solveLinear, ha]
      rw [hok, hres]
      norm_num [tol10]
  · intro ha
    simp [solveLinear, ha]

theorem C6_witness :
    ((2 : ℚ) ≠ 0 →
      solveLinear 2 (-6) =
        .ok ⟨3, if |2 * 3 + (-6)| < tol10 then 0 else 2 * 3 + (-6)⟩ ∧
      (2 : ℚ) * 3 + (-6) = 0 ∧
      solveLinear 2 (-6) = .ok ⟨3, 0⟩) ∧
    ((0 : ℚ) = 0 → solveLinear 0 (-6) = .error "InvalidCoefficient") := by
  constructor
  · exact (C6_linear_solution_and_residual 2 (-6) 3 (by norm_num)).1
  · exact (C6_linear_solution_and_residual 0 (-6) 0 (by norm_num)).2

/- ## Claim C4 -/

/-- Claim C4: for `a ≠ 0` with discriminant `d = b*b - 4*a*c > 0`, the
quadratic route returns exactly two real roots `(-b ± √d)/(2a)` sorted
ascending, each satisfying `a*x^2 + b*x + c = 0` exactly (in the exact
model), and the verification array reports the residual clamped to
exactly 0 (its magnitude is below `1e-10`) with the `isValid` flag set
(tolerance `1e-6`). -/
theorem C4_quadratic_two_real (sq : ℚ → ℚ) (a b c d s r1 r2 : ℚ)
    (ha : a ≠ 0) (hd : d = b * b - 4 * a * c) (hdpos : 0 < d)
    (hs : s = sq d) (hs2 : s * s = d) (hs0 : 0 ≤ s)
    (hr1 : r1 = (-b + s) / (2 * a)) (hr2 : r2 = (-b - s) / (2 * a)) :
    ∃ x1 x2 : ℚ,
      solveQuadratic sq a b c =
        .ok ⟨d, .real [x1, x2], "two_real",
          some [⟨x1, 0, true⟩, ⟨x2, 0, true⟩]⟩ ∧
      x1 < x2 ∧ [x1, x2].Perm [r1, r2] ∧
      a * x1 * x1 + b * x1 + c = 0 ∧ a * x2 * x2 + b * x2 + c = 0 := by
  subst hd
  have hspos : 0 < s := by
    rcases hs0.lt_or_eq with h | h
    · exact h
    · exfalso
      rw [← hs2, ← h] at hdpos
      simp at hdpos
  have hres1 : a * r1 * r1 + b * r1 + c = 0 := by
    have h0 : a * r1 * r1 + b * r1 + c
        = (s * s - (b * b - 4 * a * c)) / (4 * a) := by
      rw [hr1]
      field_simp
      ring
    rw [h0, hs2, sub_self, zero_div]
  have hres2 : a * r2 * r2 + b * r2 + c = 0 := by
    have h0 : a * r2 * r2 + b * r2 + c
        = (s * s - (b * b - 4 * a * c)) / (4 * a) := by
      rw [hr2]
      field_simp
      ring
    rw [h0, hs2, sub_self, zero_div]
  have hdiff : r1 - r2 = s / a := by
    rw [hr1, hr2]
    field_simp
    ring
  have hok : solveQuadratic sq a b c =
      .ok ⟨b * b - 4 * a * c, .real (jsSortPair r1 r2), "two_real",
        some (verifySolutions a b c (jsSortPair r1 r2))⟩ := by
    simp only [solveQuadratic, if_neg ha, if_pos hdpos, ← hs, ← hr1, ← hr2]
  rcases ha.lt_or_lt with haneg | hapos
  · -- a < 0 : r1 - r2 = s/a < 0, so the array is already ascending
    have hlt : r1 < r2 := by
      have hq : s / a < 0 := div_neg_of_pos_of_neg hspos haneg
      linarith [hdiff]
    refine ⟨r1, r2, ?_, hlt, List.Perm.refl _, hres1, hres2⟩
    have hpair : jsSortPair r1 r2 = [r1, r2] := by
      simp [jsSortPair, le_of_lt hlt]
    rw [hok, hpair]
    norm_num [verifySolutions, hres1, hres2, tol10, tol6]
  · -- 0 < a : r2 < r1, the sort swaps the two roots
    have hlt : r2 < r1 := by
      have hq : 0 < s / a := div_pos hspos hapos
      linarith [hdiff]
    refine ⟨r2, r1, ?_, hlt, List.Perm.swap r1 r2 [], hres2, hres1⟩
    have hpair : jsSortPair r1 r2 = [r2, r1] := by
      simp [jsSortPair, not_le.mpr hlt]
    rw [hok, hpair]
    norm_num [verifySolutions, hres1, hres2, tol10, tol6]

theorem C4_witness :
    ∃ x1 x2 : ℚ,
      solveQuadratic (fun _ => 1) 1 (-5) 6 =
        .ok ⟨1, .real [x1, x2], "two_real",
          some [⟨x1, 0, true⟩, ⟨x2, 0, true⟩]⟩ ∧
      x1 < x2 ∧ [x1, x2].Perm [3, 2] ∧
      1 * x1 * x1 + (-5) * x1 + 6 = 0 ∧ 1 * x2 * x2 + (-5) * x2 + 6 = 0 :=
  C4_quadratic_two_real (fun _ => 1) 1 (-5) 6 1 1 3 2 (by norm_num)
    (by norm_num) (by norm_num) (by norm_num) (by norm_num) (by norm_num)
    (by norm_num) (by norm_num)

/- ## StatsEngine helpers

`mean`, `variance`, `standardDeviation`, `median`, `min`, `max` come from
the `simple-statistics` package: `mean = sum/n`, `variance` is the
population variance `Σ(x-mean)²/n`, `standardDeviation = sqrt(variance)`,
`median` averages the two middle elements of the sorted sample for even
length, `min`/`max` are the extrema.  They are modelled here from that
library's documented behaviour; `sqrt` is again a function parameter. -/

def ssMean (l : List ℚ) : ℚ := l.sum / l.length

def ssVariance (l : List ℚ) : ℚ :=
  (l.map (fun x => (x - ssMean l) ^ 2)).sum / l.length

def ssMin (l : List ℚ) : ℚ :=
  match l with
  | [] => 0
  | x :: xs => xs.foldl min x

def ssMax (l : List ℚ) : ℚ :=
  match l with
  | [] => 0
  | x :: xs => xs.foldl max x

/-- ascending numeric sort, models `[...xs].sort((a, b) => a - b)` -/
def sortAsc (l : List ℚ) : List ℚ := l.mergeSort (fun a b => a ≤ b)

def ssMedian (l : List ℚ) : ℚ :=
  let s := sortAsc l
  let n := s.length
  if n % 2 = 0 then (s.getD (n / 2 - 1) 0 + s.getD (n / 2) 0) / 2
  else s.getD (n / 2) 0

/- `calculateQuartiles` (equations.js:1014-1026): index-based quartiles.
The float products `n * 0.25`, `n * 0.5`, `n * 0.75` are exact (the
constants are binary fractions), so `Math.floor` of them is the natural
division `n/4`, `n/2`, `3n/4`.  JS indexing out of range would give
`undefined`; for a non-empty array all three indices are in range, and
the model totalises with default `0`. -/

structure Quartiles where
  q1 : ℚ
  q2 : ℚ
  q3 : ℚ
deriving DecidableEq, Repr

def calculateQuartiles (sortedArray : List ℚ) : Quartiles :=
  let n := sortedArray.length
  ⟨sortedArray.getD (n / 4) 0, sortedArray.getD (n / 2) 0,
    sortedArray.getD (3 * n / 4) 0⟩

/- `detectOutliers` (equations.js:1028-1035): IQR rule with factor 1.5
(exact binary fraction `3/2`). -/

def detectOutliers (sortedArray : List ℚ) : List ℚ :=
  let quartiles := calculateQuartiles sortedArray
  let iqr := quartiles.q3 - quartiles.q1
  let lowerBound := quartiles.q1 - 3 / 2 * iqr
  let upperBound := quartiles.q3 + 3 / 2 * iqr
  sortedArray.filter fun value => value < lowerBound || upperBound < value

/- ## Claim C7 -/

/-- Claim C7: for every non-empty sorted sample the quartiles are the
index-based picks `sorted[floor(n/4)]`, `sorted[floor(n/2)]`,
`sorted[floor(3n/4)]` (all three indices in range, no interpolation),
and the outliers are exactly the members lying outside
`[q1 - 1.5*IQR, q3 + 1.5*IQR]`. -/
theorem C7_quartiles_index_based_and_outliers (l : List ℚ) (hne : l ≠ [])
    (hsorted : l.Sorted (· ≤ ·)) :
    (l.length / 4 < l.length ∧ l.length / 2 < l.length ∧
      3 * l.length / 4 < l.length) ∧
    calculateQuartiles l =
      ⟨l.getD (l.length / 4) 0, l.getD (l.length / 2) 0,
        l.getD (3 * l.length / 4) 0⟩ ∧
    (∀ x, x ∈ detectOutliers l ↔ x ∈ l ∧
      (x < (calculateQuartiles l).q1 -
          3 / 2 * ((calculateQuartiles l).q3 - (calculateQuartiles l).q1) ∨
        (calculateQuartiles l).q3 +
          3 / 2 * ((calculateQuartiles l).q3 - (calculateQuartiles l).q1) < x)) := by
  have hpos : 0 < l.length := List.length_pos.mpr hne
  refine ⟨⟨?_, ?_, ?_⟩, rfl, ?_⟩
  · exact Nat.div_lt_self hpos (by norm_num)
  · exact Nat.div_lt_self hpos (by norm_num)
  · rw [Nat.div_lt_iff_lt_mul (by norm_num : 0 < 4)]
    omega
  · intro x
    simp only [detectOutliers, List.mem_filter, Bool.or_eq_true, decide_eq_true_eq]

theorem C7_witness :
    (([1, 2, 3, 4, 100] : List ℚ).length / 4 < ([1, 2, 3, 4, 100] : List ℚ).length ∧
      ([1, 2, 3, 4, 100] : List ℚ).length / 2 < ([1, 2, 3, 4, 100] : List ℚ).length ∧
      3 * ([1, 2, 3, 4, 100] : List ℚ).length / 4 < ([1, 2, 3, 4, 100] : List ℚ).length) ∧
    calculateQuartiles [1, 2, 3, 4, 100] =
      ⟨([1, 2, 3, 4, 100] : List ℚ).getD (([1, 2, 3, 4, 100] : List ℚ).length / 4) 0,
        ([1, 2, 3, 4, 100] : List ℚ).getD (([1, 2, 3, 4, 100] : List ℚ).length / 2) 0,
        ([1, 2, 3, 4, 100] : List ℚ).getD (3 * ([1, 2, 3, 4, 100] : List ℚ).length / 4) 0⟩ ∧
    (∀ x, x ∈ detectOutliers [1, 2, 3, 4, 100] ↔ x ∈ ([1, 2, 3, 4, 100] : List ℚ) ∧
      (x < (calculateQuartiles [1, 2, 3, 4, 100]).q1 -
          3 / 2 * ((calculateQuartiles [1, 2, 3, 4, 100]).q3 -
            (calculateQuartiles [1, 2, 3, 4, 100]).q1) ∨
        (calculateQuartiles [1, 2, 3, 4, 100]).q3 +
          3 / 2 * ((calculateQuartiles [1, 2, 3, 4, 100]).q3 -
            (calculateQuartiles [1, 2, 3, 4, 100]).q1) < x)) :=
  C7_quartiles_index_based_and_outliers [1, 2, 3, 4, 100] (by simp)
    (by norm_num [List.sorted_cons])

/- ## Describe-route validation (Claim C3)

`router.post('/stats/descriptive')` (equations.js:725-758) and
`app.post('/api/stats')` (server.js:295-311) validate with the identical
expression `values.filter(v => typeof v === 'number' && !isNaN(v))` and
reject when the filtered array is shorter than the input.  A JSON value
is modelled as either a number (`JsNum`) or a non-number; JavaScript's
`isNaN` is `false` on `±Infinity`. -/

inductive JsVal where
  | num (x : JsNum)
  | other
deriving DecidableEq, Repr

/-- the predicate `typeof v === 'number' && !isNaN(v)` -/
def jsNumericValid : JsVal → Bool
  | .num .nan => false
  | .num _ => true
  | .other => false

/-- the validation prefix of both describe routes: reject empty input,
then reject when some element fails `jsNumericValid`; on success the
statistics are computed from the returned values. -/
def describeCheck (values : List JsVal) : Except String (List JsVal) :=
  if values.length = 0 then .error "Array de valores e obrigatorio"
  else
    let numericValues := values.filter jsNumericValid
    if numericValues.length ≠ values.length then
      .error "Todos os valores devem ser numeros validos"
    else .ok numericValues

theorem length_filter_eq_iff {α : Type} (p : α → Bool) (l : List α) :
    (l.filter p).length = l.length ↔ ∀ a ∈ l, p a = true := by
  constructor
  · intro h
    rw [← List.filter_eq_self]
    exact (List.filter_sublist l).eq_of_length h
  · intro h
    rw [List.filter_eq_self.mpr h]

/- ## Claim C3 -/

/-- Claim C3 (amended): the describe routes accept a sample exactly when
it is non-empty and every element is a number other than `NaN`; the
check happens before any statistic is computed, but `±Infinity` passes
it (JavaScript's `isNaN` is false on infinities), contrary to the
claim's "rejects any non-finite element". -/
theorem C3_describe_validation (values : List JsVal) :
    ((∃ w, describeCheck values = .ok w) ↔
      values ≠ [] ∧ ∀ v ∈ values, jsNumericValid v = true) ∧
    (JsVal.num .nan ∈ values → ∃ e, describeCheck values = .error e) := by
  constructor
  · constructor
    · rintro ⟨w, hw⟩
      by_cases h0 : values.length = 0
      · simp [describeCheck, h0] at hw
      · refine ⟨fun h => h0 (by simp [h]), ?_⟩
        rw [← length_filter_eq_iff jsNumericValid values]
        by_contra hlen
        simp [describeCheck, h0, hlen] at hw
    · rintro ⟨hne, hall⟩
      have h0 : values.length ≠ 0 := by
        simpa [List.length_eq_zero] using hne
      have hlen : (values.filter jsNumericValid).length = values.length :=
        (length_filter_eq_iff jsNumericValid values).mpr hall
      exact ⟨values.filter jsNumericValid, by simp [describeCheck, h0, hlen]⟩
  · intro hnan
    by_cases h0 : values.length = 0
    · exact ⟨"Array de valores e obrigatorio", by simp [describeCheck, h0]⟩
    · have hlen : (values.filter jsNumericValid).length ≠ values.length := by
        rw [Ne, length_filter_eq_iff jsNumericValid values]
        intro hall
        have := hall _ hnan
        simp [jsNumericValid] at this
      exact ⟨"Todos os valores devem ser numeros validos",
        by simp [describeCheck, h0, hlen]⟩

/-- Claim C3, counterexample to the claim as stated: a sample containing
`Infinity` is accepted by the validation (and the statistics are then
computed over it), not rejected. -/
theorem C3_counterexample :
    describeCheck [JsVal.num .posInf] = .ok [JsVal.num .posInf] := rfl

theorem C3_witness :
    ((∃ w, describeCheck [JsVal.num (.fin 1), JsVal.num .nan] = .ok w) ↔
      ([JsVal.num (.fin 1), JsVal.num .nan] : List JsVal) ≠ [] ∧
      ∀ v ∈ ([JsVal.num (.fin 1), JsVal.num .nan] : List JsVal),
        jsNumericValid v = true) ∧
    (JsVal.num .nan ∈ ([JsVal.num (.fin 1), JsVal.num .nan] : List JsVal) →
      ∃ e, describeCheck [JsVal.num (.fin 1), JsVal.num .nan] = .error e) :=
  C3_describe_validation [JsVal.num (.fin 1), JsVal.num .nan]

/- ## Normalize route (Claim C2)

`router.post('/normalize')` (equations.js:813-895).  After validating
that the input is a non-empty purely numeric array, the handler switches
on the method and maps a division over the data.  There is no check on
the divisor: `std`, `max - min` and `IQR` are used as-is, so a zero
scale flows into IEEE division (`0/0 = NaN`, `x/0 = ±Infinity`).  The
response's trailing before/after summary block is JSON shaping and is
not modelled; `parameters` is modelled as a name/value list. -/

inductive NormMethod where
  | zscore
  | minmax
  | robust
deriving DecidableEq, Repr

structure NormalizeOk where
  normalized : List JsNum
  params : List (String × ℚ)
deriving DecidableEq, Repr

def normalizeRoute (sq : ℚ → ℚ) (data : List ℚ) (method : NormMethod) :
    Except String NormalizeOk :=
  if data.length = 0 then .error "Array de dados e obrigatorio"
  else
    match method with
    | .zscore =>
      let meanVal := ssMean data
      let stdVal := sq (ssVariance data)
      .ok ⟨data.map fun x => jsDivQ (x - meanVal) stdVal,
        [("mean", meanVal), ("std", stdVal)]⟩
    | .minmax =>
      let minVal := ssMin data
      let maxVal := ssMax data
      let range := maxVal - minVal
      .ok ⟨data.map fun x => jsDivQ (x - minVal) range,
        [("min", minVal), ("max", maxVal), ("range", range)]⟩
    | .robust =>
      let medianVal := ssMedian data
      let sortedData := sortAsc data
      let q1 := (calculateQuartiles sortedData).q1
      let q3 := (calculateQuartiles sortedData).q3
      let iqr := q3 - q1
      .ok ⟨data.map fun x => jsDivQ (x - medianVal) iqr,
        [("median", medianVal), ("q1", q1), ("q3", q3), ("iqr", iqr)]⟩

/- ## Claim C2 -/

/-- Claim C2 (amended): the normalize route never performs a
degenerate-scale check: for every non-empty numeric sample and every
method it returns a normalized result (an `ok`, never a
`DegenerateInput` error); a zero scale flows into the division, whose
entries are then produced by IEEE division by zero. -/
theorem C2_normalize_never_degenerate_error (sq : ℚ → ℚ) (data : List ℚ)
    (method : NormMethod) (hne : data ≠ []) :
    ∃ w, normalizeRoute sq data method = .ok w := by
  have h0 : data.length ≠ 0 := by
    simpa [List.length_eq_zero] using hne
  cases method
  · exact ⟨⟨data.map fun x => jsDivQ (x - ssMean data) (sq (ssVariance data)),
      [("mean", ssMean data), ("std", sq (ssVariance data))]⟩,
      by unfold normalizeRoute; rw [if_neg h0]⟩
  · exact ⟨⟨data.map fun x => jsDivQ (x - ssMin data) (ssMax data - ssMin data),
      [("min", ssMin data), ("max", ssMax data),
        ("range", ssMax data - ssMin data)]⟩,
      by unfold normalizeRoute; rw [if_neg h0]⟩
  · exact ⟨⟨data.map fun x => jsDivQ (x - ssMedian data)
        ((calculateQuartiles (sortAsc data)).q3 -
          (calculateQuartiles (sortAsc data)).q1),
      [("median", ssMedian data), ("q1", (calculateQuartiles (sortAsc data)).q1),
        ("q3", (calculateQuartiles (sortAsc data)).q3),
        ("iqr", (calculateQuartiles (sortAsc data)).q3 -
          (calculateQuartiles (sortAsc data)).q1)]⟩,
      by unfold normalizeRoute; rw [if_neg h0]⟩

/-- Claim C2, counterexample to the claim as stated: minmax
normalization of the all-equal sample `[5, 5]` has scale
`max - min = 0`; the route does not fail with `DegenerateInput` but
returns a success result whose entries are `0/0 = NaN`. -/
theorem C2_counterexample :
    normalizeRoute (fun q => q) [5, 5] .minmax =
      .ok ⟨[JsNum.nan, JsNum.nan], [("min", 5), ("max", 5), ("range", 0)]⟩ := by
  norm_num [normalizeRoute, ssMin, ssMax, jsDivQ]

theorem C2_witness :
    ∃ w, normalizeRoute (fun q => q) [1, 2] .zscore = .ok w :=
  C2_normalize_never_degenerate_error (fun q => q) [1, 2] .zscore (by simp)

/- ## Correlation route (Claims C9, C10)

`router.post('/correlation')` (equations.js:930-999) with helpers
`calculateCorrelation` (1002-1012) and `tDistribution` (1063-1066).
The nested objects keyed by variable names are modelled index-wise as a
square list of lists (JS object keys are unique and iterate in insertion
order, so entry `(i, j)` of the model is the entry at keys
`(variables[i], variables[j])`).  The `interpretation`, `method` and
`sample_size` response fields are JSON shaping and are not modelled.

The t-statistic `t = corr * Math.sqrt((n-2)/(1-corr^2))` can pass
through NaN and infinities (e.g. `corr = ±1` or zero-variance data), so
it is computed in `JsNum` arithmetic, modelled on the IEEE rules. -/

def JsNum.sub : JsNum → JsNum → JsNum
  | .nan, _ => .nan
  | _, .nan => .nan
  | .fin a, .fin b => .fin (a - b)
  | .posInf, .posInf => .nan
  | .posInf, _ => .posInf
  | .negInf, .negInf => .nan
  | .negInf, _ => .negInf
  | .fin _, .posInf => .negInf
  | .fin _, .negInf => .posInf

def JsNum.mul : JsNum → JsNum → JsNum
  | .nan, _ => .nan
  | _, .nan => .nan
  | .fin a, .fin b => .fin (a * b)
  | .posInf, .posInf => .posInf
  | .posInf, .negInf => .negInf
  | .negInf, .posInf => .negInf
  | .negInf, .negInf => .posInf
  | .posInf, .fin b => if 0 < b then .posInf else if b < 0 then .negInf else .nan
  | .fin a, .posInf => if 0 < a then .posInf else if a < 0 then .negInf else .nan
  | .negInf, .fin b => if 0 < b then .negInf else if b < 0 then .posInf else .nan
  | .fin a, .negInf => if 0 < a then .negInf else if a < 0 then .posInf else .nan

def JsNum.div : JsNum → JsNum → JsNum
  | .nan, _ => .nan
  | _, .nan => .nan
  | .fin a, .fin b => jsDivQ a b
  | .posInf, .posInf => .nan
  | .posInf, .negInf => .nan
  | .negInf, .posInf => .nan
  | .negInf, .negInf => .nan
  | .posInf, .fin b => if 0 ≤ b then .posInf else .negInf
  | .negInf, .fin b => if 0 ≤ b then .negInf else .posInf
  | .fin _, .posInf => .fin 0
  | .fin _, .negInf => .fin 0

def JsNum.abs : JsNum → JsNum
  | .fin q => .fin |q|
  | .posInf => .posInf
  | .negInf => .posInf
  | .nan => .nan

def jsSqrtN (sq : ℚ → ℚ) : JsNum → JsNum
  | .fin q => if q < 0 then .nan else .fin (sq q)
  | .posInf => .posInf
  | .negInf => .nan
  | .nan => .nan

/-- model of `calculateCorrelation` (equations.js:1002-1012); the index-aligned
reduce over `x` with `y[i]` is modelled by a zip (the route has already
checked equal lengths). -/
def calculateCorrelation (sq : ℚ → ℚ) (x y : List ℚ) : JsNum :=
  let meanX := ssMean x
  let meanY := ssMean y
  let numerator := ((x.zip y).map fun p => (p.1 - meanX) * (p.2 - meanY)).sum
  let denomX := (x.map fun xi => (xi - meanX) ^ 2).sum
  let denomY := (y.map fun yi => (yi - meanY) ^ 2).sum
  jsDivQ numerator (sq (denomX * denomY))

/-- model of `tDistribution` (equations.js:1063-1066): the body is literally
`return 0.5`, ignoring both arguments. -/
def tDistribution (t : JsNum) (df : ℚ) : ℚ := 1 / 2

def corrEntry (sq : ℚ → ℚ) (datasets : List (String × List ℚ)) (i j : ℕ) :
    JsNum :=
  if i = j then .fin 1
  else calculateCorrelation sq (datasets.getD i ("", [])).2
    (datasets.getD j ("", [])).2

def pEntry (sq : ℚ → ℚ) (datasets : List (String × List ℚ)) (i j : ℕ) : ℚ :=
  if i = j then 0
  else
    let x := (datasets.getD i ("", [])).2
    let y := (datasets.getD j ("", [])).2
    let corr := calculateCorrelation sq x y
    let n := x.length
    let t := corr.mul (jsSqrtN sq
      ((JsNum.fin ((n : ℚ) - 2)).div ((JsNum.fin 1).sub (corr.mul corr))))
    2 * (1 - tDistribution t.abs ((n : ℚ) - 2))

def correlationRoute (sq : ℚ → ℚ) (datasets : List (String × List ℚ)) :
    Except String (List (List JsNum) × List (List ℚ)) :=
  if datasets.length < 2 then
    .error "Pelo menos duas variaveis sao necessarias"
  else if ¬ (datasets.all fun p =>
      p.2.length = (datasets.headD ("", [])).2.length) then
    .error "Todas as variaveis devem ter o mesmo numero de observacoes"
  else
    .ok ((List.range datasets.length).map fun i =>
          (List.range datasets.length).map fun j => corrEntry sq datasets i j,
        (List.range datasets.length).map fun i =>
          (List.range datasets.length).map fun j => pEntry sq datasets i j)

theorem rangeMapGetD {α : Type} (f : ℕ → α) (n i : ℕ) (d : α) (h : i < n) :
    ((List.range n).map f).getD i d = f i := by
  have hlen : i < ((List.range n).map f).length := by simpa using h
  rw [List.getD_eq_getElem _ _ hlen, List.getElem_map, List.getElem_range]

/- ## Claim C9 -/

/-- Claim C9: for every valid correlation input (at least two variables,
all samples of equal length), every diagonal entry of the returned
correlation matrix is the assigned constant `1.0` (the `i === j` branch
of the loop), regardless of the data values. -/
theorem C9_correlation_diagonal_one (sq : ℚ → ℚ)
    (datasets : List (String × List ℚ)) (h2 : 2 ≤ datasets.length)
    (hlen : ∀ p ∈ datasets, p.2.length = (datasets.headD ("", [])).2.length) :
    ∃ m pv, correlationRoute sq datasets = .ok (m, pv) ∧
      m.length = datasets.length ∧
      ∀ i, i < datasets.length → (m.getD i []).getD i .nan = .fin 1 := by
  have hc1 : ¬ datasets.length < 2 := not_lt.mpr h2
  have hc2 : (datasets.all fun p =>
      p.2.length = (datasets.headD ("", [])).2.length) = true := by
    rw [List.all_eq_true]
    intro p hp
    simpa using hlen p hp
  refine ⟨(List.range datasets.length).map fun i =>
      (List.range datasets.length).map fun j => corrEntry sq datasets i j,
    (List.range datasets.length).map fun i =>
      (List.range datasets.length).map fun j => pEntry sq datasets i j,
    ?_, by simp, ?_⟩
  · simp [correlationRoute, hc1, hc2]
    intro x xl hmem
    simpa using hlen (x, xl) hmem
  · intro i hi
    rw [rangeMapGetD _ _ _ _ hi, rangeMapGetD _ _ _ _ hi]
    simp [corrEntry]

theorem C9_witness :
    ∃ m pv, correlationRoute (fun q => q)
        [("height", [1, 2, 3]), ("weight", [2, 4, 6])] = .ok (m, pv) ∧
      m.length =
        ([("height", [1, 2, 3]), ("weight", [2, 4, 6])] :
          List (String × List ℚ)).length ∧
      ∀ i, i < ([("height", [1, 2, 3]), ("weight", [2, 4, 6])] :
          List (String × List ℚ)).length →
        (m.getD i []).getD i .nan = .fin 1 :=
  C9_correlation_diagonal_one (fun q => q)
    [("height", [1, 2, 3]), ("weight", [2, 4, 6])] (by decide)
    (by intro p hp; fin_cases hp <;> rfl)

/- ## Claim C10 -/

/-- Claim C10: for every valid correlation input, the `tDistribution`
helper is the constant function `0.5`, hence every off-diagonal p-value
is exactly `2 * (1 - 0.5) = 1.0` and every diagonal p-value is the
assigned `0.0`, independently of the data and of the t-statistic. -/
theorem C10_pvalues_constant (sq : ℚ → ℚ)
    (datasets : List (String × List ℚ)) (h2 : 2 ≤ datasets.length)
    (hlen : ∀ p ∈ datasets, p.2.length = (datasets.headD ("", [])).2.length) :
    (∀ t df, tDistribution t df = 1 / 2) ∧
    ∃ m pv, correlationRoute sq datasets = .ok (m, pv) ∧
      pv.length = datasets.length ∧
      ∀ i j, i < datasets.length → j < datasets.length →
        (pv.getD i []).getD j 37 = if i = j then 0 else 1 := by
  have hc1 : ¬ datasets.length < 2 := not_lt.mpr h2
  have hc2 : (datasets.all fun p =>
      p.2.length = (datasets.headD ("", [])).2.length) = true := by
    rw [List.all_eq_true]
    intro p hp
    simpa using hlen p hp
  refine ⟨fun t df => rfl,
    (List.range datasets.length).map fun i =>
      (List.range datasets.length).map fun j => corrEntry sq datasets i j,
    (List.range datasets.length).map fun i =>
      (List.range datasets.length).map fun j => pEntry sq datasets i j,
    ?_, by simp, ?_⟩
  · simp [correlationRoute, hc1, hc2]
    intro x xl hmem
    simpa using hlen (x, xl) hmem
  · intro i j hi hj
    rw [rangeMapGetD _ _ _ _ hi, rangeMapGetD _ _ _ _ hj]
    by_cases hij : i = j
    · simp [pEntry, hij]
    · simp only [pEntry, if_neg hij, tDistribution]
      norm_num

theorem C10_witness :
    (∀ t df, tDistribution t df = 1 / 2) ∧
    ∃ m pv, correlationRoute (fun q => q)
        [("height", [1, 2, 3]), ("weight", [2, 4, 6])] = .ok (m, pv) ∧
      pv.length =
        ([("height", [1, 2, 3]), ("weight", [2, 4, 6])] :
          List (String × List ℚ)).length ∧
      ∀ i j, i < ([("height", [1, 2, 3]), ("weight", [2, 4, 6])] :
            List (String × List ℚ)).length →
        j < ([("height", [1, 2, 3]), ("weight", [2, 4, 6])] :
            List (String × List ℚ)).length →
        (pv.getD i []).getD j 37 = if i = j then 0 else 1 :=
  C10_pvalues_constant (fun q => q)
    [("height", [1, 2, 3]), ("weight", [2, 4, 6])] (by decide)
    (by intro p hp; fin_cases hp <;> rfl)

/- ## EquationParser (Claims C1, C8)

`parseEquation` (equations.js:481-541), `parseCoeff` (543-547),
`formatQuadraticEquation` (426-443), `formatLinearEquation` (445-456).

Strings are modelled as `List Char`.  Number-to-string conversion for
the integer coefficients of the round-trip claim is decimal
(`intToChars`).  Each of the five regular expressions of the source is
compiled to a deterministic matcher: this is faithful to the
backtracking regex semantics because in every pattern each optional
token (`[+-]?`, `\*?`, `\^?`) and each digit run (`\d*`, `\d+`) is
followed by a required token from a disjoint character class, so eager
maximal munching never loses a match; the unanchored JS `match` is the
leftmost such match (`scan` below tries start positions left to
right). -/

def digitChar (d : ℕ) : Char := Char.ofNat (48 + d)

def natDigitsAux : ℕ → ℕ → List ℕ
  | 0, _ => []
  | fuel + 1, n => if n = 0 then [] else n % 10 :: natDigitsAux fuel (n / 10)

/-- little-endian base-10 digits of `n` (empty for `n = 0`); the fuel
`n` is always sufficient since a number has at most `n` digits -/
def natDigits (n : ℕ) : List ℕ := natDigitsAux n n

/-- decimal string of a natural number, as JS `${n}` renders it -/
def natToChars (n : ℕ) : List Char :=
  if n = 0 then ['0'] else ((natDigits n).map digitChar).reverse

/-- decimal string of an integer, as JS `${i}` renders it -/
def intToChars (i : ℤ) : List Char :=
  if i < 0 then '-' :: natToChars i.natAbs else natToChars i.natAbs

def formatQuadraticEquation (a b c : ℤ) : List Char :=
  (if a = 1 then ['x', '²']
   else if a = -1 then ['-', 'x', '²']
   else intToChars a ++ ['x', '²']) ++
  (if 0 < b then
    [' ', '+', ' '] ++ (if b = 1 then [] else intToChars b) ++ ['x']
   else if b < 0 then
    [' ', '-', ' '] ++ (if b = -1 then [] else natToChars b.natAbs) ++ ['x']
   else []) ++
  (if 0 < c then [' ', '+', ' '] ++ intToChars c
   else if c < 0 then [' ', '-', ' '] ++ natToChars c.natAbs
   else []) ++
  [' ', '=', ' ', '0']

def formatLinearEquation (a b : ℤ) : List Char :=
  (if a = 1 then ['x']
   else if a = -1 then ['-', 'x']
   else intToChars a ++ ['x']) ++
  (if 0 < b then [' ', '+', ' '] ++ intToChars b
   else if b < 0 then [' ', '-', ' '] ++ natToChars b.natAbs
   else []) ++
  [' ', '=', ' ', '0']

/-- the character class of `/\s/` restricted to the whitespace that can
occur in the modelled inputs -/
def isJsSpace (ch : Char) : Bool :=
  ch = ' ' || ch = '\t' || ch = '\n' || ch = '\r'

/-- ASCII case folding; `toLowerCase` leaves digits, signs, `x`, `²`,
`=` unchanged -/
def jsToLower (ch : Char) : Char :=
  if 'A' ≤ ch ∧ ch ≤ 'Z' then Char.ofNat (ch.toNat + 32) else ch

/-- model of `equation.replace(/\s/g, '').toLowerCase()` -/
def preprocess (s : List Char) : List Char :=
  (s.filter fun ch => ! isJsSpace ch).map jsToLower

/- ### Matcher combinators -/

/-- item `[+-]?` -/
def eatSignOpt (l : List Char) : List Char × List Char :=
  match l with
  | ch :: rest => if ch = '+' ∨ ch = '-' then ([ch], rest) else ([], ch :: rest)
  | [] => ([], [])

/-- maximal run of `\d` -/
def eatDigits : List Char → List Char × List Char
  | [] => ([], [])
  | ch :: rest =>
    if ch.isDigit then
      let p := eatDigits rest
      (ch :: p.1, p.2)
    else ([], ch :: rest)

/-- capture group `([+-]?\d*)` (always succeeds) -/
def capG1 (l : List Char) : List Char × List Char :=
  let p := eatSignOpt l
  let q := eatDigits p.2
  (p.1 ++ q.1, q.2)

/-- capture group `([+-]\d*)` -/
def capSD0 (l : List Char) : Option (List Char × List Char) :=
  match l with
  | ch :: rest =>
    if ch = '+' ∨ ch = '-' then
      let p := eatDigits rest
      some (ch :: p.1, p.2)
    else none
  | [] => none

/-- capture group `([+-]\d+)` -/
def capSD1 (l : List Char) : Option (List Char × List Char) :=
  match l with
  | ch :: rest =>
    if ch = '+' ∨ ch = '-' then
      let p := eatDigits rest
      if p.1 = [] then none else some (ch :: p.1, p.2)
    else none
  | [] => none

def eatLit (ch : Char) (l : List Char) : Option (List Char) :=
  match l with
  | d :: rest => if d = ch then some rest else none
  | [] => none

def eatOptLit (ch : Char) (l : List Char) : List Char :=
  match l with
  | d :: rest => if d = ch then rest else d :: rest
  | [] => []

/-- head `x\^?2` -/
def eatX2asc (l : List Char) : Option (List Char) :=
  (eatLit 'x' l).bind fun l1 => eatLit '2' (eatOptLit '^' l1)

/-- head `x²` -/
def eatX2sup (l : List Char) : Option (List Char) :=
  (eatLit 'x' l).bind fun l1 => eatLit '²' l1

structure MatchGroups where
  g1 : List Char
  g2 : Option (List Char)
  g3 : Option (List Char)
deriving DecidableEq, Repr

/-- tail `([+-]\d*)\*?x([+-]\d+)=0` of the 3-group quadratic
patterns (the trailing part of the subject after `=0` is unconstrained:
the patterns are unanchored) -/
def tailBxC (g1 : List Char) (l : List Char) : Option MatchGroups :=
  (capSD0 l).bind fun p =>
    (eatLit 'x' (eatOptLit '*' p.2)).bind fun l2 =>
      (capSD1 l2).bind fun q =>
        (eatLit '=' q.2).bind fun l3 =>
          (eatLit '0' l3).map fun _ => ⟨g1, some p.1, some q.1⟩

/-- tail `([+-]\d+)=0` of the 2-group patterns -/
def tailC (g1 : List Char) (l : List Char) : Option MatchGroups :=
  (capSD1 l).bind fun q =>
    (eatLit '=' q.2).bind fun l3 =>
      (eatLit '0' l3).map fun _ => ⟨g1, some q.1, none⟩

/-- group `([+-]?\d*)` and `\*?`, then the head (`x^?2`, `x²` or bare
`x`), then the
tail -/
def runPat (head : List Char → Option (List Char))
    (tail : List Char → List Char → Option MatchGroups)
    (l : List Char) : Option MatchGroups :=
  let p := capG1 l
  (head (eatOptLit '*' p.2)).bind (tail p.1)

def runQ1 : List Char → Option MatchGroups := runPat eatX2asc tailBxC

def runQ2 : List Char → Option MatchGroups := runPat eatX2sup tailBxC

def runQ3 : List Char → Option MatchGroups := runPat eatX2asc tailC

def runQ4 : List Char → Option MatchGroups := runPat eatX2sup tailC

def runL1 : List Char → Option MatchGroups := runPat (eatLit 'x') tailC

/-- unanchored leftmost match: try every start position left to right -/
def scan (f : List Char → Option MatchGroups) : List Char → Option MatchGroups
  | [] => f []
  | ch :: rest =>
    match f (ch :: rest) with
    | some g => some g
    | none => scan f rest

/- ### Coefficient extraction -/

/-- big-endian value of a digit string, as `parseInt` accumulates it -/
def digitsValN (l : List Char) : ℕ :=
  l.foldl (fun acc ch => 10 * acc + (ch.toNat - 48)) 0

/-- JS `parseInt`: optional sign, then a maximal digit prefix; `NaN`
(here `none`) when no digit follows -/
def jsParseInt (l : List Char) : Option ℤ :=
  match l with
  | [] => none
  | ch :: rest =>
    if ch = '+' then
      let p := eatDigits rest
      if p.1 = [] then none else some (digitsValN p.1 : ℤ)
    else if ch = '-' then
      let p := eatDigits rest
      if p.1 = [] then none else some (-(digitsValN p.1 : ℤ))
    else
      let p := eatDigits (ch :: rest)
      if p.1 = [] then none else some (digitsValN p.1 : ℤ)

/-- model of `parseCoeff` (equations.js:543-547); the argument is an optional
capture (`none` = the group did not participate), the result is an
optional integer (`none` = `NaN`) -/
def parseCoeff (str : Option (List Char)) : Option ℤ :=
  match str with
  | none => some 1
  | some l =>
    if l = [] then some 1
    else if l = ['+'] then some 1
    else if l = ['-'] then some (-1)
    else jsParseInt l

/-- JS `v || dflt` where `v` is a number: `0` and `NaN` are falsy -/
def jsOrElse (v : Option ℤ) (dflt : ℤ) : ℤ :=
  match v with
  | none => dflt
  | some n => if n = 0 then dflt else n

/-- JS truthiness of `match[k]`: `undefined` and `''` are falsy -/
def truthy : Option (List Char) → Bool
  | none => false
  | some l => ! l.isEmpty

inductive ParseResult where
  | quadratic (a : ℤ) (b c : Option ℤ)
  | linear (a b : ℤ)
  | failure
deriving DecidableEq, Repr

/-- the shared extraction following a quadratic pattern match
(equations.js:502-504); `b`/`c` stay optional integers because
`parseCoeff` can in principle return `NaN` (the returned `formatted`
string, recomputed by `formatQuadraticEquation` from these integers, is
response shaping and is not modelled) -/
def extractQuad (g : MatchGroups) : ParseResult :=
  let a := jsOrElse (parseCoeff (some g.g1)) 1
  let b := if truthy g.g2 then parseCoeff g.g2 else some 0
  let c := if truthy g.g3 then parseCoeff g.g3 else parseCoeff g.g2
  .quadratic a b c

/-- the linear extraction (equations.js:519-520) -/
def extractLin (g : MatchGroups) : ParseResult :=
  let a := jsOrElse (parseCoeff (some g.g1)) 1
  let b := jsOrElse (parseCoeff g.g2) 0
  .linear a b

/-- model of `parseEquation` (equations.js:481-541): normalise, then try the four
quadratic patterns and the linear pattern in source order -/
def parseEquation (s : List Char) : ParseResult :=
  let eq := preprocess s
  match scan runQ1 eq with
  | some g => extractQuad g
  | none =>
  match scan runQ2 eq with
  | some g => extractQuad g
  | none =>
  match scan runQ3 eq with
  | some g => extractQuad g
  | none =>
  match scan runQ4 eq with
  | some g => extractQuad g
  | none =>
  match scan runL1 eq with
  | some g => extractLin g
  | none => .failure

example : parseEquation "x² - 5x + 6 = 0".data =
    .quadratic 1 (some (-5)) (some 6) := by decide

example : parseEquation "2x² - 3x + 1 = 0".data =
    .quadratic 2 (some (-3)) (some 1) := by decide

example : parseEquation "x^2 + 5x - 6 = 0".data =
    .quadratic 1 (some 5) (some (-6)) := by decide

example : parseEquation "3x + 6 = 0".data = .linear 3 6 := by decide

example : parseEquation "x² - 4 = 0".data =
    .quadratic 1 (some (-4)) (some (-4)) := by decide

example : parseEquation "0x+5=0".data = .linear 1 5 := by decide

example : parseEquation (formatQuadraticEquation 1 0 6) =
    .quadratic 1 (some 6) (some 6) := by decide

example : parseEquation (formatQuadraticEquation 1 (-5) 6) =
    .quadratic 1 (some (-5)) (some 6) := by decide

example : parseEquation (formatLinearEquation 2 (-6)) = .linear 2 (-6) := by
  decide

/- ### Digit-string infrastructure for the round-trip claim -/

def digitChars : List Char :=
  ['0', '1', '2', '3', '4', '5', '6', '7', '8', '9']

theorem natDigitsAux_lt10 :
    ∀ fuel n, ∀ d ∈ natDigitsAux fuel n, d < 10 := by
  intro fuel
  induction fuel with
  | zero => intro n d hd; simp [natDigitsAux] at hd
  | succ f ih =>
    intro n d hd
    by_cases h0 : n = 0
    · simp [natDigitsAux, h0] at hd
    · rw [natDigitsAux, if_neg h0] at hd
      rcases List.mem_cons.mp hd with h | h
      · subst h
        exact Nat.mod_lt _ (by norm_num)
      · exact ih _ _ h

theorem digitChar_mem (d : ℕ) (h : d < 10) : digitChar d ∈ digitChars := by
  interval_cases d <;> decide

theorem mem_natToChars (n : ℕ) (ch : Char) (h : ch ∈ natToChars n) :
    ch ∈ digitChars := by
  unfold natToChars at h
  by_cases h0 : n = 0
  · rw [if_pos h0] at h
    simp at h
    subst h
    decide
  · rw [if_neg h0, List.mem_reverse, List.mem_map] at h
    obtain ⟨d, hd, rfl⟩ := h
    exact digitChar_mem d (natDigitsAux_lt10 n n d hd)

/-- the facts about digit characters used below -/
theorem digit_facts (ch : Char) (h : ch ∈ digitChars) :
    ch.isDigit = true ∧ isJsSpace ch = false ∧ jsToLower ch = ch ∧
    ch ≠ 'x' ∧ ch ≠ '+' ∧ ch ≠ '-' ∧ ch ≠ '*' ∧ ch ≠ '=' ∧ ch ≠ '²' := by
  fin_cases h <;> decide

/-- little-endian value of a digit list -/
def valLE : List ℕ → ℕ
  | [] => 0
  | d :: ds => d + 10 * valLE ds

theorem natDigitsAux_val :
    ∀ fuel n, n ≤ fuel → valLE (natDigitsAux fuel n) = n := by
  intro fuel
  induction fuel with
  | zero =>
    intro n h
    interval_cases n
    rfl
  | succ f ih =>
    intro n h
    by_cases h0 : n = 0
    · simp [natDigitsAux, h0, valLE]
    · rw [natDigitsAux, if_neg h0, valLE]
      have hdiv : n / 10 ≤ f := by
        have := Nat.div_lt_self (Nat.pos_of_ne_zero h0) (by norm_num : 1 < 10)
        omega
      rw [ih _ hdiv]
      omega

theorem digitChar_toNat (d : ℕ) (h : d < 10) : (digitChar d).toNat = 48 + d := by
  interval_cases d <;> decide

theorem foldr_digits (ds : List ℕ) (h : ∀ d ∈ ds, d < 10) :
    List.foldr (fun d acc => 10 * acc + ((digitChar d).toNat - 48)) 0 ds =
      valLE ds := by
  induction ds with
  | nil => rfl
  | cons d t ih =>
    rw [List.foldr_cons, ih (fun d hd => h d (List.mem_cons_of_mem _ hd)),
      digitChar_toNat d (h d (List.mem_cons_self d t))]
    rw [valLE]
    omega

theorem digitsValN_natToChars (n : ℕ) : digitsValN (natToChars n) = n := by
  unfold natToChars
  by_cases h0 : n = 0
  · rw [if_pos h0, h0]
    rfl
  · rw [if_neg h0]
    unfold digitsValN
    rw [List.foldl_reverse, List.foldr_map]
    have h1 : List.foldr (fun d acc => 10 * acc + ((digitChar d).toNat - 48)) 0
        (natDigits n) = valLE (natDigits n) :=
      foldr_digits _ (natDigitsAux_lt10 n n)
    calc List.foldr (fun x acc => 10 * acc + ((digitChar x).toNat - 48)) 0
          (natDigits n)
        = valLE (natDigits n) := h1
      _ = n := natDigitsAux_val n n le_rfl

theorem natToChars_ne_nil (n : ℕ) : natToChars n ≠ [] := by
  unfold natToChars
  by_cases h0 : n = 0
  · simp [h0]
  · rw [if_neg h0]
    obtain ⟨m, rfl⟩ := Nat.exists_eq_succ_of_ne_zero h0
    rw [natDigits, natDigitsAux, if_neg (Nat.succ_ne_zero m)]
    simp

theorem eatDigits_append (ds rest : List Char)
    (hds : ∀ ch ∈ ds, ch.isDigit = true)
    (hrest : ∀ ch, rest.head? = some ch → ch.isDigit = false) :
    eatDigits (ds ++ rest) = (ds, rest) := by
  induction ds with
  | nil =>
    rw [List.nil_append]
    cases rest with
    | nil => rfl
    | cons ch t => simp [eatDigits, hrest ch rfl]
  | cons d t ih =>
    have hd := hds d (List.mem_cons_self d t)
    rw [List.cons_append]
    simp only [eatDigits, hd, if_true]
    rw [ih (fun c hc => hds c (List.mem_cons_of_mem _ hc))]

theorem eatDigits_all (ds : List Char) (hds : ∀ ch ∈ ds, ch.isDigit = true) :
    eatDigits ds = (ds, []) := by
  simpa using eatDigits_append ds [] hds (by simp)

theorem natToChars_head_digitChars (n : ℕ) :
    ∃ ch t, natToChars n = ch :: t ∧ ch ∈ digitChars ∧
      ∀ c ∈ t, c ∈ digitChars := by
  cases h : natToChars n with
  | nil => exact absurd h (natToChars_ne_nil n)
  | cons ch t =>
    refine ⟨ch, t, rfl, ?_, ?_⟩
    · exact mem_natToChars n ch (h ▸ List.mem_cons_self ch t)
    · intro c hc
      exact mem_natToChars n c (h ▸ List.mem_cons_of_mem _ hc)

theorem jsParseInt_nat (n : ℕ) : jsParseInt (natToChars n) = some (n : ℤ) := by
  obtain ⟨ch, t, hct, hch, ht⟩ := natToChars_head_digitChars n
  obtain ⟨hdig, _, _, _, hplus, hminus, _⟩ := digit_facts ch hch
  have hall : ∀ c ∈ natToChars n, c.isDigit = true := by
    intro c hc
    exact (digit_facts c (mem_natToChars n c hc)).1
  have heat : eatDigits (ch :: t) = (ch :: t, []) := by
    rw [← hct]
    exact eatDigits_all _ hall
  rw [hct]
  simp only [jsParseInt, if_neg hplus, if_neg hminus, heat]
  rw [if_neg (by simp), ← hct, digitsValN_natToChars]

theorem jsParseInt_plus (n : ℕ) :
    jsParseInt ('+' :: natToChars n) = some (n : ℤ) := by
  have hall : ∀ c ∈ natToChars n, c.isDigit = true := by
    intro c hc
    exact (digit_facts c (mem_natToChars n c hc)).1
  simp only [jsParseInt, if_pos rfl, eatDigits_all _ hall]
  rw [if_neg (natToChars_ne_nil n), digitsValN_natToChars]
  simp

theorem jsParseInt_minus (n : ℕ) :
    jsParseInt ('-' :: natToChars n) = some (-(n : ℤ)) := by
  have hall : ∀ c ∈ natToChars n, c.isDigit = true := by
    intro c hc
    exact (digit_facts c (mem_natToChars n c hc)).1
  simp only [jsParseInt, if_neg (by decide : ¬('-' : Char) = '+'), if_pos rfl,
    eatDigits_all _ hall]
  rw [if_neg (natToChars_ne_nil n), digitsValN_natToChars]
  simp

theorem jsParseInt_intToChars (k : ℤ) : jsParseInt (intToChars k) = some k := by
  unfold intToChars
  by_cases hk : k < 0
  · rw [if_pos hk, jsParseInt_minus]
    congr 1
    omega
  · rw [if_neg hk, jsParseInt_nat]
    congr 1
    omega

theorem parseCoeff_eq_jsParseInt (l : List Char) (h1 : l ≠ [])
    (h2 : l ≠ ['+']) (h3 : l ≠ ['-']) :
    parseCoeff (some l) = jsParseInt l := by
  simp [parseCoeff, h1, h2, h3]

theorem parseCoeff_intToChars (k : ℤ) :
    parseCoeff (some (intToChars k)) = some k := by
  rw [parseCoeff_eq_jsParseInt, jsParseInt_intToChars]
  · unfold intToChars
    by_cases hk : k < 0
    · simp [if_pos hk]
    · rw [if_neg hk]
      exact natToChars_ne_nil _
  · unfold intToChars
    by_cases hk : k < 0
    · rw [if_pos hk]
      intro h
      have : ('-' : Char) = '+' := by injection h
      exact absurd this (by decide)
    · rw [if_neg hk]
      intro h
      have : '+' ∈ natToChars k.natAbs := h ▸ List.mem_cons_self _ _
      have := (digit_facts _ (mem_natToChars _ _ this)).2.2.2.2.1
      exact this rfl
  · unfold intToChars
    by_cases hk : k < 0
    · rw [if_pos hk]
      intro h
      have : natToChars k.natAbs = [] := by injection h
      exact absurd this (natToChars_ne_nil _)
    · rw [if_neg hk]
      intro h
      have : '-' ∈ natToChars k.natAbs := h ▸ List.mem_cons_self _ _
      have := (digit_facts _ (mem_natToChars _ _ this)).2.2.2.2.2.1
      exact this rfl

/- ### The whitespace-stripped shape of formatted equations -/

/-- leading-coefficient spelling in a formatted equation, after
stripping: `''` for `1`, `'-'` for `-1`, else the decimal string -/
def sQuadA (a : ℤ) : List Char :=
  if a = 1 then [] else if a = -1 then ['-'] else intToChars a

/-- stripped spelling of the linear term of a formatted quadratic
(`b ≠ 0`): a sign, then the digits unless `|b| = 1` -/
def sQuadB (b : ℤ) : List Char :=
  (if 0 < b then '+' else '-') ::
    (if b = 1 ∨ b = -1 then [] else natToChars b.natAbs)

/-- stripped spelling of a non-zero constant term: sign then digits -/
def sTermC (c : ℤ) : List Char :=
  (if 0 < c then '+' else '-') :: natToChars c.natAbs

theorem preprocess_append (u v : List Char) :
    preprocess (u ++ v) = preprocess u ++ preprocess v := by
  simp [preprocess, List.filter_append]

theorem preprocess_space (l : List Char) :
    preprocess (' ' :: l) = preprocess l := by
  simp [preprocess, isJsSpace]

theorem preprocess_digitChars (l : List Char) (h : ∀ ch ∈ l, ch ∈ digitChars) :
    preprocess l = l := by
  unfold preprocess
  have h1 : l.filter (fun ch => ! isJsSpace ch) = l :=
    List.filter_eq_self.mpr fun a ha => by simp [(digit_facts a (h a ha)).2.1]
  rw [h1]
  have h2 : l.map jsToLower = l.map id :=
    List.map_congr_left fun a ha => (digit_facts a (h a ha)).2.2.1
  rw [h2, List.map_id]

theorem preprocess_fixed (ch : Char) (l : List Char)
    (h1 : isJsSpace ch = false) (h2 : jsToLower ch = ch) :
    preprocess (ch :: l) = ch :: preprocess l := by
  simp [preprocess, h1, h2]

theorem preprocess_natToChars (n : ℕ) :
    preprocess (natToChars n) = natToChars n :=
  preprocess_digitChars _ (mem_natToChars n)

theorem preprocess_intToChars (k : ℤ) :
    preprocess (intToChars k) = intToChars k := by
  unfold intToChars
  by_cases hk : k < 0
  · rw [if_pos hk, preprocess_fixed _ _ (by decide) (by decide),
      preprocess_natToChars]
  · rw [if_neg hk, preprocess_natToChars]

theorem intToChars_pos (k : ℤ) (h : ¬ k < 0) :
    intToChars k = natToChars k.natAbs := by
  unfold intToChars
  rw [if_neg h]

theorem preprocess_formatQuad (a b c : ℤ) (hb : b ≠ 0) (hc : c ≠ 0) :
    preprocess (formatQuadraticEquation a b c) =
      sQuadA a ++ 'x' :: '²' ::
        (sQuadB b ++ 'x' :: (sTermC c ++ ['=', '0'])) := by
  unfold formatQuadraticEquation
  rw [preprocess_append, preprocess_append, preprocess_append]
  have hA : preprocess (if a = 1 then ['x', '²']
      else if a = -1 then ['-', 'x', '²']
      else intToChars a ++ ['x', '²']) = sQuadA a ++ ['x', '²'] := by
    unfold sQuadA
    by_cases h1 : a = 1
    · subst h1
      decide
    · by_cases h2 : a = -1
      · subst h2
        decide
      · simp only [if_neg h1, if_neg h2]
        rw [preprocess_append, preprocess_intToChars,
          show preprocess ['x', '²'] = ['x', '²'] from by decide]
  have hB : preprocess (if 0 < b then
        [' ', '+', ' '] ++ (if b = 1 then [] else intToChars b) ++ ['x']
      else if b < 0 then
        [' ', '-', ' '] ++ (if b = -1 then [] else natToChars b.natAbs) ++ ['x']
      else []) = sQuadB b ++ ['x'] := by
    unfold sQuadB
    by_cases h1 : 0 < b
    · by_cases h2 : b = 1
      · subst h2
        decide
      · simp only [if_pos h1, if_neg h2,
          if_neg (show ¬(b = 1 ∨ b = -1) by omega)]
        rw [preprocess_append, preprocess_append, preprocess_intToChars,
          show preprocess [' ', '+', ' '] = ['+'] from by decide,
          show preprocess ['x'] = ['x'] from by decide,
          intToChars_pos b (by omega)]
        simp
    · by_cases h2 : b = -1
      · subst h2
        decide
      · simp only [if_neg h1, if_pos (show b < 0 by omega), if_neg h2,
          if_neg (show ¬(b = 1 ∨ b = -1) by omega)]
        rw [preprocess_append, preprocess_append, preprocess_natToChars,
          show preprocess [' ', '-', ' '] = ['-'] from by decide,
          show preprocess ['x'] = ['x'] from by decide]
        simp
  have hC : preprocess (if 0 < c then [' ', '+', ' '] ++ intToChars c
      else if c < 0 then [' ', '-', ' '] ++ natToChars c.natAbs
      else []) = sTermC c := by
    unfold sTermC
    by_cases h1 : 0 < c
    · simp only [if_pos h1]
      rw [preprocess_append, preprocess_intToChars,
        show preprocess [' ', '+', ' '] = ['+'] from by decide,
        intToChars_pos c (by omega)]
      rfl
    · simp only [if_neg h1, if_pos (show c < 0 by omega)]
      rw [preprocess_append, preprocess_natToChars,
        show preprocess [' ', '-', ' '] = ['-'] from by decide]
      rfl
  rw [hA, hB, hC, show preprocess [' ', '=', ' ', '0'] = ['=', '0'] from by
    decide]
  simp

theorem preprocess_formatLin (a b : ℤ) (hb : b ≠ 0) :
    preprocess (formatLinearEquation a b) =
      sQuadA a ++ 'x' :: (sTermC b ++ ['=', '0']) := by
  unfold formatLinearEquation
  rw [preprocess_append, preprocess_append]
  have hA : preprocess (if a = 1 then ['x']
      else if a = -1 then ['-', 'x']
      else intToChars a ++ ['x']) = sQuadA a ++ ['x'] := by
    unfold sQuadA
    by_cases h1 : a = 1
    · subst h1
      decide
    · by_cases h2 : a = -1
      · subst h2
        decide
      · simp only [if_neg h1, if_neg h2]
        rw [preprocess_append, preprocess_intToChars,
          show preprocess ['x'] = ['x'] from by decide]
  have hB : preprocess (if 0 < b then [' ', '+', ' '] ++ intToChars b
      else if b < 0 then [' ', '-', ' '] ++ natToChars b.natAbs
      else []) = sTermC b := by
    unfold sTermC
    by_cases h1 : 0 < b
    · simp only [if_pos h1]
      rw [preprocess_append, preprocess_intToChars,
        show preprocess [' ', '+', ' '] = ['+'] from by decide,
        intToChars_pos b (by omega)]
      rfl
    · simp only [if_neg h1, if_pos (show b < 0 by omega)]
      rw [preprocess_append, preprocess_natToChars,
        show preprocess [' ', '-', ' '] = ['-'] from by decide]
      rfl
  rw [hA, hB, show preprocess [' ', '=', ' ', '0'] = ['=', '0'] from by decide]
  simp

/- ### The quadratic and linear patterns match the formatted string -/

theorem natToChars_all_digits (n : ℕ) :
    ∀ c ∈ natToChars n, c.isDigit = true :=
  fun c hc => (digit_facts c (mem_natToChars n c hc)).1

theorem eatSignOpt_sign (ch : Char) (l : List Char)
    (h : ch = '+' ∨ ch = '-') : eatSignOpt (ch :: l) = ([ch], l) := by
  simp [eatSignOpt, h]

theorem capG1_intToChars (k : ℤ) (ch : Char) (rest : List Char)
    (hch : ch.isDigit = false) (hsign : ¬(ch = '+' ∨ ch = '-')) :
    capG1 (intToChars k ++ ch :: rest) = (intToChars k, ch :: rest) := by
  have hhead : ∀ c, (ch :: rest).head? = some c → c.isDigit = false := by
    intro c hc
    simp at hc
    subst hc
    exact hch
  unfold capG1 intToChars
  by_cases hk : k < 0
  · rw [if_pos hk, List.cons_append, eatSignOpt_sign _ _ (Or.inr rfl)]
    simp [eatDigits_append _ _ (natToChars_all_digits _) hhead]
  · rw [if_neg hk]
    obtain ⟨d, t, hdt, hd, ht⟩ := natToChars_head_digitChars k.natAbs
    rw [hdt, List.cons_append]
    have hfacts := digit_facts d hd
    have heat : eatDigits (d :: t ++ ch :: rest) = (d :: t, ch :: rest) := by
      refine eatDigits_append _ _ ?_ hhead
      intro c hc
      rcases List.mem_cons.mp hc with h | h
      · subst h
        exact hfacts.1
      · exact (digit_facts c (ht c h)).1
    rw [List.cons_append] at heat
    rw [show eatSignOpt (d :: (t ++ ch :: rest)) = ([], d :: (t ++ ch :: rest))
      from by simp [eatSignOpt, hfacts.2.2.2.2.1, hfacts.2.2.2.2.2.1]]
    simp [heat]

theorem capG1_sQuadA (a : ℤ) (rest : List Char) :
    capG1 (sQuadA a ++ 'x' :: rest) = (sQuadA a, 'x' :: rest) := by
  unfold sQuadA
  by_cases h1 : a = 1
  · simp [if_pos h1, capG1, eatSignOpt, eatDigits]
  · by_cases h2 : a = -1
    · simp [if_neg h1, if_pos h2, capG1, eatSignOpt, eatDigits]
    · simp only [if_neg h1, if_neg h2]
      exact capG1_intToChars a 'x' rest (by decide) (by decide)

theorem capSD0_sQuadB (b : ℤ) (rest : List Char) :
    capSD0 (sQuadB b ++ 'x' :: rest) = some (sQuadB b, 'x' :: rest) := by
  unfold sQuadB
  have hhead : ∀ c, ('x' :: rest).head? = some c → c.isDigit = false := by
    intro c hc
    simp at hc
    subst hc
    decide
  by_cases h1 : 0 < b
  · simp only [if_pos h1, List.cons_append]
    rw [show capSD0 ('+' :: ((if b = 1 ∨ b = -1 then [] else
        natToChars b.natAbs) ++ 'x' :: rest)) =
      some ('+' :: (eatDigits ((if b = 1 ∨ b = -1 then [] else
        natToChars b.natAbs) ++ 'x' :: rest)).1,
        (eatDigits ((if b = 1 ∨ b = -1 then [] else
        natToChars b.natAbs) ++ 'x' :: rest)).2) from by
      simp [capSD0]]
    by_cases h2 : b = 1 ∨ b = -1
    · simp only [if_pos h2, List.nil_append]
      rw [show eatDigits ('x' :: rest) = ([], 'x' :: rest) from by
        simp [eatDigits]]
    · simp only [if_neg h2]
      rw [eatDigits_append _ _ (natToChars_all_digits _) hhead]
  · simp only [if_neg h1, List.cons_append]
    rw [show capSD0 ('-' :: ((if b = 1 ∨ b = -1 then [] else
        natToChars b.natAbs) ++ 'x' :: rest)) =
      some ('-' :: (eatDigits ((if b = 1 ∨ b = -1 then [] else
        natToChars b.natAbs) ++ 'x' :: rest)).1,
        (eatDigits ((if b = 1 ∨ b = -1 then [] else
        natToChars b.natAbs) ++ 'x' :: rest)).2) from by
      simp [capSD0]]
    by_cases h2 : b = 1 ∨ b = -1
    · simp only [if_pos h2, List.nil_append]
      rw [show eatDigits ('x' :: rest) = ([], 'x' :: rest) from by
        simp [eatDigits]]
    · simp only [if_neg h2]
      rw [eatDigits_append _ _ (natToChars_all_digits _) hhead]

theorem capSD1_sTermC (c : ℤ) (rest : List Char)
    (hrest : ∀ ch, rest.head? = some ch → ch.isDigit = false) :
    capSD1 (sTermC c ++ rest) = some (sTermC c, rest) := by
  unfold sTermC
  have heat : eatDigits (natToChars c.natAbs ++ rest) =
      (natToChars c.natAbs, rest) :=
    eatDigits_append _ _ (natToChars_all_digits _) hrest
  by_cases h1 : 0 < c
  · simp only [if_pos h1, List.cons_append]
    simp [capSD1, heat, natToChars_ne_nil]
  · simp only [if_neg h1, List.cons_append]
    simp [capSD1, heat, natToChars_ne_nil]

theorem tailC_sTermC (g1 : List Char) (c : ℤ) :
    tailC g1 (sTermC c ++ ['=', '0']) = some ⟨g1, some (sTermC c), none⟩ := by
  unfold tailC
  rw [capSD1_sTermC c ['=', '0'] (by intro ch h; simp at h; subst h; decide)]
  simp [eatLit]

theorem tailBxC_full (g1 : List Char) (b c : ℤ) :
    tailBxC g1 (sQuadB b ++ 'x' :: (sTermC c ++ ['=', '0'])) =
      some ⟨g1, some (sQuadB b), some (sTermC c)⟩ := by
  unfold tailBxC
  rw [capSD0_sQuadB b (sTermC c ++ ['=', '0'])]
  simp only [Option.some_bind,
    show eatOptLit '*' ('x' :: (sTermC c ++ ['=', '0'])) =
      'x' :: (sTermC c ++ ['=', '0']) from by simp [eatOptLit],
    show eatLit 'x' ('x' :: (sTermC c ++ ['=', '0'])) =
      some (sTermC c ++ ['=', '0']) from by simp [eatLit],
    capSD1_sTermC c ['=', '0'] (by intro ch h; simp at h; subst h; decide)]
  simp [eatLit]

theorem runQ2_pos0 (a b c : ℤ) :
    runQ2 (sQuadA a ++ 'x' :: '²' ::
        (sQuadB b ++ 'x' :: (sTermC c ++ ['=', '0']))) =
      some ⟨sQuadA a, some (sQuadB b), some (sTermC c)⟩ := by
  unfold runQ2 runPat
  simp only [capG1_sQuadA a ('²' :: (sQuadB b ++ 'x' :: (sTermC c ++ ['=', '0']))),
    show eatOptLit '*' ('x' :: '²' ::
        (sQuadB b ++ 'x' :: (sTermC c ++ ['=', '0']))) =
      'x' :: '²' :: (sQuadB b ++ 'x' :: (sTermC c ++ ['=', '0'])) from by
        simp [eatOptLit],
    show eatX2sup ('x' :: '²' ::
        (sQuadB b ++ 'x' :: (sTermC c ++ ['=', '0']))) =
      some (sQuadB b ++ 'x' :: (sTermC c ++ ['=', '0'])) from by
        simp [eatX2sup, eatLit],
    Option.some_bind]
  exact tailBxC_full _ b c

theorem runL1_pos0 (a b : ℤ) :
    runL1 (sQuadA a ++ 'x' :: (sTermC b ++ ['=', '0'])) =
      some ⟨sQuadA a, some (sTermC b), none⟩ := by
  unfold runL1 runPat
  simp only [capG1_sQuadA a (sTermC b ++ ['=', '0']),
    show eatOptLit '*' ('x' :: (sTermC b ++ ['=', '0'])) =
      'x' :: (sTermC b ++ ['=', '0']) from by simp [eatOptLit],
    show eatLit 'x' ('x' :: (sTermC b ++ ['=', '0'])) =
      some (sTermC b ++ ['=', '0']) from by simp [eatLit],
    Option.some_bind]
  exact tailC_sTermC _ b

theorem scan_of_some (f : List Char → Option MatchGroups) (l : List Char)
    (g : MatchGroups) (h : f l = some g) : scan f l = some g := by
  cases l with
  | nil => simpa [scan] using h
  | cons ch t => simp [scan, h]

/- ### The earlier patterns fail on the formatted string -/

theorem eatDigits_suffix (l : List Char) : ∃ p, l = p ++ (eatDigits l).2 := by
  induction l with
  | nil => exact ⟨[], rfl⟩
  | cons ch t ih =>
    by_cases h : ch.isDigit = true
    · obtain ⟨p, hp⟩ := ih
      refine ⟨ch :: p, ?_⟩
      simp only [eatDigits, h, if_true]
      simpa using hp
    · exact ⟨[], by simp [eatDigits, h]⟩

theorem eatSignOpt_suffix (l : List Char) : ∃ p, l = p ++ (eatSignOpt l).2 := by
  cases l with
  | nil => exact ⟨[], rfl⟩
  | cons ch t =>
    by_cases h : ch = '+' ∨ ch = '-'
    · exact ⟨[ch], by simp [eatSignOpt, h]⟩
    · exact ⟨[], by simp [eatSignOpt, h]⟩

theorem capG1_suffix (l : List Char) : ∃ p, l = p ++ (capG1 l).2 := by
  obtain ⟨p1, hp1⟩ := eatSignOpt_suffix l
  obtain ⟨p2, hp2⟩ := eatDigits_suffix (eatSignOpt l).2
  refine ⟨p1 ++ p2, ?_⟩
  have h2 : (capG1 l).2 = (eatDigits (eatSignOpt l).2).2 := rfl
  rw [h2, List.append_assoc, ← hp2, ← hp1]

theorem eatOptLit_suffix (ch : Char) (l : List Char) :
    ∃ p, l = p ++ eatOptLit ch l := by
  cases l with
  | nil => exact ⟨[], rfl⟩
  | cons d t =>
    by_cases h : d = ch
    · exact ⟨[d], by simp [eatOptLit, h]⟩
    · exact ⟨[], by simp [eatOptLit, h]⟩

theorem eatX2asc_shape (l l3 : List Char) (h : eatX2asc l = some l3) :
    l = 'x' :: '2' :: l3 ∨ l = 'x' :: '^' :: '2' :: l3 := by
  unfold eatX2asc at h
  cases l with
  | nil => simp [eatLit] at h
  | cons ch t =>
    by_cases hch : ch = 'x'
    · subst hch
      rw [show eatLit 'x' ('x' :: t) = some t from by simp [eatLit],
        Option.some_bind] at h
      cases t with
      | nil => simp [eatOptLit, eatLit] at h
      | cons d t2 =>
        by_cases hd : d = '^'
        · subst hd
          rw [show eatOptLit '^' ('^' :: t2) = t2 from by
            simp [eatOptLit]] at h
          cases t2 with
          | nil => simp [eatLit] at h
          | cons e t3 =>
            by_cases he : e = '2'
            · subst he
              right
              rw [show eatLit '2' ('2' :: t3) = some t3 from by
                simp [eatLit]] at h
              simp at h
              rw [h]
            · simp [eatLit, he] at h
        · rw [show eatOptLit '^' (d :: t2) = d :: t2 from by
            simp [eatOptLit, hd]] at h
          by_cases hd2 : d = '2'
          · subst hd2
            left
            rw [show eatLit '2' ('2' :: t2) = some t2 from by
              simp [eatLit]] at h
            simp at h
            rw [h]
          · simp [eatLit, hd2] at h
    · simp [eatLit, hch] at h

theorem eatX2sup_shape (l l3 : List Char) (h : eatX2sup l = some l3) :
    l = 'x' :: '²' :: l3 := by
  unfold eatX2sup at h
  cases l with
  | nil => simp [eatLit] at h
  | cons ch t =>
    by_cases hch : ch = 'x'
    · subst hch
      rw [show eatLit 'x' ('x' :: t) = some t from by simp [eatLit],
        Option.some_bind] at h
      cases t with
      | nil => simp [eatLit] at h
      | cons d t2 =>
        by_cases hd : d = '²'
        · subst hd
          rw [show eatLit '²' ('²' :: t2) = some t2 from by
            simp [eatLit]] at h
          simp at h
          rw [h]
        · simp [eatLit, hd] at h
    · simp [eatLit, hch] at h

theorem runPat_asc_decomp (tail : List Char → List Char → Option MatchGroups)
    (l : List Char) (g : MatchGroups) (h : runPat eatX2asc tail l = some g) :
    (∃ p m, l = p ++ 'x' :: '2' :: m) ∨
    (∃ p m, l = p ++ 'x' :: '^' :: '2' :: m) := by
  simp only [runPat] at h
  cases hx : eatX2asc (eatOptLit '*' (capG1 l).2) with
  | none => rw [hx] at h; simp at h
  | some l3 =>
    obtain ⟨p1, hp1⟩ := capG1_suffix l
    obtain ⟨p2, hp2⟩ := eatOptLit_suffix '*' (capG1 l).2
    rcases eatX2asc_shape _ _ hx with hsh | hsh
    · left
      exact ⟨p1 ++ p2, l3, by rw [List.append_assoc, ← hsh, ← hp2, ← hp1]⟩
    · right
      exact ⟨p1 ++ p2, l3, by rw [List.append_assoc, ← hsh, ← hp2, ← hp1]⟩

theorem runPat_sup_mem (tail : List Char → List Char → Option MatchGroups)
    (l : List Char) (g : MatchGroups) (h : runPat eatX2sup tail l = some g) :
    '²' ∈ l := by
  simp only [runPat] at h
  cases hx : eatX2sup (eatOptLit '*' (capG1 l).2) with
  | none => rw [hx] at h; simp at h
  | some l3 =>
    obtain ⟨p1, hp1⟩ := capG1_suffix l
    obtain ⟨p2, hp2⟩ := eatOptLit_suffix '*' (capG1 l).2
    have hsh := eatX2sup_shape _ _ hx
    rw [hp1, hp2, hsh]
    simp

theorem scan_eq_none (f : List Char → Option MatchGroups) (l : List Char)
    (h : ∀ t, t <:+ l → f t = none) : scan f l = none := by
  induction l with
  | nil => simpa [scan] using h [] (List.suffix_refl [])
  | cons ch t ih =>
    rw [scan, h _ (List.suffix_refl _)]
    exact ih fun s hs => h s (hs.trans (List.suffix_cons ch t))

/-- the safety relation for adjacent characters: no `'x'` immediately
followed by `'2'` or `'^'`, so the `x^?2` head can match nowhere -/
def xSafe (c1 c2 : Char) : Prop := c1 = 'x' → c2 ≠ '2' ∧ c2 ≠ '^'

theorem chain_xSafe_of_no_x (l : List Char) (h : ∀ ch ∈ l, ch ≠ 'x') :
    List.Chain' xSafe l := by
  induction l with
  | nil => simp
  | cons a t ih =>
    rw [List.chain'_cons']
    refine ⟨?_, ih fun c hc => h c (List.mem_cons_of_mem _ hc)⟩
    intro y hy
    exact fun hax => absurd hax (h a (List.mem_cons_self a t))

theorem chain_xSafe_no_decomp (l : List Char) (hx : List.Chain' xSafe l) :
    ∀ p c m, (c = '2' ∨ c = '^') → l ≠ p ++ 'x' :: c :: m := by
  intro p c m hc hl
  subst hl
  have h1 := (List.chain'_append.mp hx).2.1
  have h2 := (List.chain'_cons.mp h1).1
  rcases hc with rfl | rfl
  · exact (h2 rfl).1 rfl
  · exact (h2 rfl).2 rfl

theorem scan_asc_none (tail : List Char → List Char → Option MatchGroups)
    (l : List Char) (hx : List.Chain' xSafe l) :
    scan (runPat eatX2asc tail) l = none := by
  apply scan_eq_none
  intro t ht
  cases hrun : runPat eatX2asc tail t with
  | none => rfl
  | some g =>
    exfalso
    obtain ⟨p0, hp0⟩ := ht
    have hxt : List.Chain' xSafe t := by
      rw [← hp0] at hx
      exact (List.chain'_append.mp hx).2.1
    rcases runPat_asc_decomp tail t g hrun with ⟨p, m, hdec⟩ | ⟨p, m, hdec⟩
    · exact chain_xSafe_no_decomp t hxt p '2' m (Or.inl rfl) hdec
    · exact chain_xSafe_no_decomp t hxt p '^' ('2' :: m) (Or.inr rfl) hdec

theorem scan_sup_none (tail : List Char → List Char → Option MatchGroups)
    (l : List Char) (h2 : '²' ∉ l) :
    scan (runPat eatX2sup tail) l = none := by
  apply scan_eq_none
  intro t ht
  cases hrun : runPat eatX2sup tail t with
  | none => rfl
  | some g => exact absurd (ht.mem (runPat_sup_mem tail t g hrun)) h2

theorem mem_intToChars (k : ℤ) (ch : Char) (h : ch ∈ intToChars k) :
    ch = '-' ∨ ch ∈ digitChars := by
  unfold intToChars at h
  by_cases hk : k < 0
  · rw [if_pos hk] at h
    rcases List.mem_cons.mp h with rfl | hm
    · exact Or.inl rfl
    · exact Or.inr (mem_natToChars _ _ hm)
  · rw [if_neg hk] at h
    exact Or.inr (mem_natToChars _ _ h)

theorem sQuadA_no_x (a : ℤ) : ∀ ch ∈ sQuadA a, ch ≠ 'x' := by
  intro ch h
  unfold sQuadA at h
  by_cases h1 : a = 1
  · simp [h1] at h
  · by_cases h2 : a = -1
    · rw [if_neg h1, if_pos h2] at h
      simp at h
      subst h
      decide
    · rw [if_neg h1, if_neg h2] at h
      rcases mem_intToChars a ch h with rfl | hm
      · decide
      · exact (digit_facts ch hm).2.2.2.1

theorem natToChars_no_x (n : ℕ) : ∀ ch ∈ natToChars n, ch ≠ 'x' :=
  fun ch hm => (digit_facts ch (mem_natToChars n ch hm)).2.2.2.1

theorem sQuadA_no_sup (a : ℤ) : ∀ ch ∈ sQuadA a, ch ≠ '²' := by
  intro ch h
  unfold sQuadA at h
  by_cases h1 : a = 1
  · simp [h1] at h
  · by_cases h2 : a = -1
    · rw [if_neg h1, if_pos h2] at h
      simp at h
      subst h
      decide
    · rw [if_neg h1, if_neg h2] at h
      rcases mem_intToChars a ch h with rfl | hm
      · decide
      · exact (digit_facts ch hm).2.2.2.2.2.2.2.2

theorem chain_quadShape (A B2 C2 : List Char) (s1 s2 : Char)
    (hA : ∀ ch ∈ A, ch ≠ 'x') (hB : ∀ ch ∈ B2, ch ≠ 'x')
    (hC : ∀ ch ∈ C2, ch ≠ 'x')
    (hs1 : s1 = '+' ∨ s1 = '-') (hs2 : s2 = '+' ∨ s2 = '-') :
    List.Chain' xSafe (A ++ 'x' :: '²' ::
      ((s1 :: B2) ++ 'x' :: ((s2 :: C2) ++ ['=', '0']))) := by
  rw [List.chain'_append]
  refine ⟨chain_xSafe_of_no_x A hA, ?_, ?_⟩
  · rw [List.chain'_cons]
    refine ⟨fun _ => ⟨by decide, by decide⟩, ?_⟩
    rw [List.chain'_cons']
    refine ⟨fun y hy => fun h => absurd h (by decide), ?_⟩
    rw [List.chain'_append]
    refine ⟨?_, ?_, ?_⟩
    · apply chain_xSafe_of_no_x
      intro ch hch
      rcases List.mem_cons.mp hch with rfl | hm
      · rcases hs1 with rfl | rfl <;> decide
      · exact hB ch hm
    · rw [List.cons_append, List.chain'_cons]
      refine ⟨?_, ?_⟩
      · intro _
        rcases hs2 with rfl | rfl <;> exact ⟨by decide, by decide⟩
      · apply chain_xSafe_of_no_x
        intro ch hch
        rcases List.mem_cons.mp hch with rfl | hm
        · rcases hs2 with rfl | rfl <;> decide
        · rcases List.mem_append.mp hm with h | h
          · exact hC ch h
          · simp at h
            rcases h with rfl | rfl <;> decide
    · intro x hx y hy
      have hxmem : x ∈ s1 :: B2 := List.mem_of_mem_getLast? hx
      intro hxx
      exfalso
      rcases List.mem_cons.mp hxmem with rfl | hm
      · rcases hs1 with h | h <;> rw [h] at hxx <;> exact absurd hxx (by decide)
      · exact hB x hm hxx
  · intro x hx y hy
    have hxmem : x ∈ A := List.mem_of_mem_getLast? hx
    exact fun hxx => absurd hxx (hA x hxmem)

theorem chain_linShape (A C2 : List Char) (s2 : Char)
    (hA : ∀ ch ∈ A, ch ≠ 'x') (hC : ∀ ch ∈ C2, ch ≠ 'x')
    (hs2 : s2 = '+' ∨ s2 = '-') :
    List.Chain' xSafe (A ++ 'x' :: ((s2 :: C2) ++ ['=', '0'])) := by
  rw [List.chain'_append]
  refine ⟨chain_xSafe_of_no_x A hA, ?_, ?_⟩
  · rw [List.cons_append, List.chain'_cons]
    refine ⟨?_, ?_⟩
    · intro _
      rcases hs2 with rfl | rfl <;> exact ⟨by decide, by decide⟩
    · apply chain_xSafe_of_no_x
      intro ch hch
      rcases List.mem_cons.mp hch with rfl | hm
      · rcases hs2 with rfl | rfl <;> decide
      · rcases List.mem_append.mp hm with h | h
        · exact hC ch h
        · simp at h
          rcases h with rfl | rfl <;> decide
  · intro x hx y hy
    have hxmem : x ∈ A := List.mem_of_mem_getLast? hx
    exact fun hxx => absurd hxx (hA x hxmem)

theorem sup_not_mem_linStr (a b : ℤ) :
    '²' ∉ sQuadA a ++ 'x' :: (sTermC b ++ ['=', '0']) := by
  intro h
  rcases List.mem_append.mp h with h | h
  · exact sQuadA_no_sup a '²' h rfl
  · rcases List.mem_cons.mp h with h | h
    · exact absurd h (by decide)
    · rcases List.mem_append.mp h with h | h
      · unfold sTermC at h
        rcases List.mem_cons.mp h with h | h
        · by_cases hb : 0 < b
          · rw [if_pos hb] at h
            exact absurd h (by decide)
          · rw [if_neg hb] at h
            exact absurd h (by decide)
        · exact (digit_facts _ (mem_natToChars _ _ h)).2.2.2.2.2.2.2.2 rfl
      · simp at h

/- ### Extraction of the round-tripped coefficients -/

theorem jsOrElse_sQuadA (a : ℤ) (ha : a ≠ 0) :
    jsOrElse (parseCoeff (some (sQuadA a))) 1 = a := by
  unfold sQuadA
  by_cases h1 : a = 1
  · subst h1
    decide
  · by_cases h2 : a = -1
    · subst h2
      decide
    · rw [if_neg h1, if_neg h2, parseCoeff_intToChars]
      simp [jsOrElse, ha]

theorem parseCoeff_sQuadB (b : ℤ) (hb : b ≠ 0) :
    parseCoeff (some (sQuadB b)) = some b := by
  unfold sQuadB
  by_cases h1 : b = 1
  · subst h1
    decide
  · by_cases h2 : b = -1
    · subst h2
      decide
    · rw [if_neg (show ¬(b = 1 ∨ b = -1) by omega)]
      by_cases h3 : 0 < b
      · rw [if_pos h3, parseCoeff_eq_jsParseInt, jsParseInt_plus]
        · congr 1
          omega
        · simp
        · intro h
          injection h with h1 h2
          exact natToChars_ne_nil _ h2
        · intro h
          injection h with h1 h2
          exact absurd h1 (by decide)
      · rw [if_neg h3, parseCoeff_eq_jsParseInt, jsParseInt_minus]
        · congr 1
          omega
        · simp
        · intro h
          injection h with h1 h2
          exact absurd h1 (by decide)
        · intro h
          injection h with h1 h2
          exact natToChars_ne_nil _ h2

theorem parseCoeff_sTermC (c : ℤ) (hc : c ≠ 0) :
    parseCoeff (some (sTermC c)) = some c := by
  unfold sTermC
  by_cases h3 : 0 < c
  · rw [if_pos h3, parseCoeff_eq_jsParseInt, jsParseInt_plus]
    · congr 1
      omega
    · simp
    · intro h
      injection h with h1 h2
      exact natToChars_ne_nil _ h2
    · intro h
      injection h with h1 h2
      exact absurd h1 (by decide)
  · rw [if_neg h3, parseCoeff_eq_jsParseInt, jsParseInt_minus]
    · congr 1
      omega
    · simp
    · intro h
      injection h with h1 h2
      exact absurd h1 (by decide)
    · intro h
      injection h with h1 h2
      exact natToChars_ne_nil _ h2

theorem sQuadB_sign (b : ℤ) :
    (if 0 < b then '+' else '-') = '+' ∨ (if 0 < b then '+' else '-') = '-' := by
  by_cases h : 0 < b
  · exact Or.inl (if_pos h)
  · exact Or.inr (if_neg h)

theorem extractQuad_roundtrip (a b c : ℤ) (ha : a ≠ 0) (hb : b ≠ 0)
    (hc : c ≠ 0) :
    extractQuad ⟨sQuadA a, some (sQuadB b), some (sTermC c)⟩ =
      .quadratic a (some b) (some c) := by
  have hBne : (sQuadB b).isEmpty = false := by
    unfold sQuadB
    rfl
  have hCne : (sTermC c).isEmpty = false := by
    unfold sTermC
    rfl
  simp only [extractQuad, truthy, hBne, hCne, Bool.not_false, if_pos]
  rw [jsOrElse_sQuadA a ha, parseCoeff_sQuadB b hb, parseCoeff_sTermC c hc]

theorem extractLin_roundtrip (a b : ℤ) (ha : a ≠ 0) (hb : b ≠ 0) :
    extractLin ⟨sQuadA a, some (sTermC b), none⟩ = .linear a b := by
  simp only [extractLin]
  rw [jsOrElse_sQuadA a ha, parseCoeff_sTermC b hb]
  simp [jsOrElse, hb]

/- ## Claim C1 -/

/-- Claim C1 (amended): the round-trip
`parseEquation (format...) = coefficients` holds for every integer
quadratic `(a, b, c)` with `a ≠ 0`, `b ≠ 0` and `c ≠ 0`, and for every
integer linear `(a, b)` with `a ≠ 0` and `b ≠ 0`.  (When `b = 0` and
`c ≠ 0` the formatted quadratic still lies in the supported grammar —
it matches the two-term pattern — but parses back with both remaining
coefficients equal to the constant term; see the counterexample.) -/
theorem C1_roundtrip_nonzero (a b c : ℤ) (ha : a ≠ 0) (hb : b ≠ 0)
    (hc : c ≠ 0) :
    parseEquation (formatQuadraticEquation a b c) =
      .quadratic a (some b) (some c) ∧
    parseEquation (formatLinearEquation a b) = .linear a b := by
  constructor
  · have heq := preprocess_formatQuad a b c hb hc
    have hchain : List.Chain' xSafe (sQuadA a ++ 'x' :: '²' ::
        (sQuadB b ++ 'x' :: (sTermC c ++ ['=', '0']))) := by
      have h := chain_quadShape (sQuadA a)
        (if b = 1 ∨ b = -1 then [] else natToChars b.natAbs)
        (natToChars c.natAbs)
        (if 0 < b then '+' else '-') (if 0 < c then '+' else '-')
        (sQuadA_no_x a)
        (by
          intro ch hch
          by_cases hb1 : b = 1 ∨ b = -1
          · rw [if_pos hb1] at hch
            simp at hch
          · rw [if_neg hb1] at hch
            exact natToChars_no_x _ ch hch)
        (natToChars_no_x _)
        (sQuadB_sign b) (sQuadB_sign c)
      exact h
    have h1 : scan runQ1 (sQuadA a ++ 'x' :: '²' ::
        (sQuadB b ++ 'x' :: (sTermC c ++ ['=', '0']))) = none :=
      scan_asc_none tailBxC _ hchain
    have h2 : scan runQ2 (sQuadA a ++ 'x' :: '²' ::
        (sQuadB b ++ 'x' :: (sTermC c ++ ['=', '0']))) =
        some ⟨sQuadA a, some (sQuadB b), some (sTermC c)⟩ :=
      scan_of_some _ _ _ (runQ2_pos0 a b c)
    simp only [parseEquation]
    rw [heq, h1, h2]
    exact extractQuad_roundtrip a b c ha hb hc
  · have heq := preprocess_formatLin a b hb
    have hchain : List.Chain' xSafe
        (sQuadA a ++ 'x' :: (sTermC b ++ ['=', '0'])) := by
      have h := chain_linShape (sQuadA a) (natToChars b.natAbs)
        (if 0 < b then '+' else '-') (sQuadA_no_x a) (natToChars_no_x _)
        (sQuadB_sign b)
      exact h
    have hsup := sup_not_mem_linStr a b
    have h1 : scan runQ1 (sQuadA a ++ 'x' :: (sTermC b ++ ['=', '0'])) =
        none := scan_asc_none tailBxC _ hchain
    have h2 : scan runQ2 (sQuadA a ++ 'x' :: (sTermC b ++ ['=', '0'])) =
        none := scan_sup_none tailBxC _ hsup
    have h3 : scan runQ3 (sQuadA a ++ 'x' :: (sTermC b ++ ['=', '0'])) =
        none := scan_asc_none tailC _ hchain
    have h4 : scan runQ4 (sQuadA a ++ 'x' :: (sTermC b ++ ['=', '0'])) =
        none := scan_sup_none tailC _ hsup
    have h5 : scan runL1 (sQuadA a ++ 'x' :: (sTermC b ++ ['=', '0'])) =
        some ⟨sQuadA a, some (sTermC b), none⟩ :=
      scan_of_some _ _ _ (runL1_pos0 a b)
    simp only [parseEquation]
    rw [heq, h1, h2, h3, h4, h5]
    exact extractLin_roundtrip a b ha hb

/-- Claim C1, counterexample to the claim as stated: `(a, b, c) =
(1, 0, 6)` formats to `"x² + 6 = 0"`, which lies within the supported
pattern grammar (it matches the two-term quadratic pattern, so
`parseEquation` succeeds), yet parses back to `(1, 6, 6) ≠ (1, 0, 6)`:
the shared extraction reads the constant-term capture into both `b` and
`c` when the linear-term group is absent. -/
theorem C1_counterexample :
    parseEquation (formatQuadraticEquation 1 0 6) =
      .quadratic 1 (some 6) (some 6) ∧
    ParseResult.quadratic 1 (some 6) (some 6) ≠
      ParseResult.quadratic 1 (some 0) (some 6) := by
  decide

theorem C1_witness :
    parseEquation (formatQuadraticEquation 1 (-5) 6) =
      .quadratic 1 (some (-5)) (some 6) ∧
    parseEquation (formatLinearEquation 1 (-5)) = .linear 1 (-5) :=
  C1_roundtrip_nonzero 1 (-5) 6 (by decide) (by decide) (by decide)

/- ## Claim C8 -/

/-- Claim C8 (amended): `parseCoeff` itself maps an absent capture, an
empty capture or a bare `+` to 1, a bare `-` to −1, and any other token
to its `parseInt` value; but the extraction then passes the leading
coefficient through `|| 1`, so a captured token whose integer value is
0 (e.g. `'0'`) yields leading coefficient 1, while the other positions
(no `|| 1` on the quadratic `b`, `c`) keep the parsed value. -/
theorem C8_extraction_rule (g : MatchGroups) (l : List Char) (n : ℤ) :
    (parseCoeff none = some 1 ∧ parseCoeff (some []) = some 1 ∧
      parseCoeff (some ['+']) = some 1 ∧
      parseCoeff (some ['-']) = some (-1)) ∧
    (l ≠ [] → l ≠ ['+'] → l ≠ ['-'] →
      parseCoeff (some l) = jsParseInt l) ∧
    (parseCoeff (some g.g1) = some n →
      ∃ b c, extractQuad g = .quadratic (if n = 0 then 1 else n) b c) ∧
    (truthy g.g2 = true →
      ∃ a c, extractQuad g = .quadratic a (parseCoeff g.g2) c) := by
  refine ⟨⟨by decide, by decide, by decide, by decide⟩,
    parseCoeff_eq_jsParseInt l, ?_, ?_⟩
  · intro h
    refine ⟨if truthy g.g2 then parseCoeff g.g2 else some 0,
      if truthy g.g3 then parseCoeff g.g3 else parseCoeff g.g2, ?_⟩
    simp only [extractQuad, h]
    rfl
  · intro ht
    refine ⟨jsOrElse (parseCoeff (some g.g1)) 1,
      if truthy g.g3 then parseCoeff g.g3 else parseCoeff g.g2, ?_⟩
    simp only [extractQuad, ht]
    rfl

/-- Claim C8, counterexample to the claim as stated: on the matched
input `"0x+5=0"` the linear pattern captures the token `'0'` as group 1
and `parseCoeff '0' = 0`, yet the extracted leading coefficient is `1`,
because the extraction applies `|| 1` to the result. -/
theorem C8_counterexample :
    scan runL1 (preprocess "0x+5=0".data) =
      some ⟨['0'], some ['+', '5'], none⟩ ∧
    parseCoeff (some ['0']) = some 0 ∧
    parseEquation "0x+5=0".data = .linear 1 5 := by
  decide

theorem C8_witness :
    parseCoeff (some (['0'] : List Char)) = some 0 ∧
    (∃ b c, extractQuad ⟨['0'], some ['+', '5'], none⟩ =
      .quadratic 1 b c) := by
  have h := C8_extraction_rule ⟨['0'], some ['+', '5'], none⟩ ['-', '3'] 0
  refine ⟨by decide, ?_⟩
  have h3 := h.2.2.1 (by decide)
  simpa using h3
